import Mathlib

/-!
Verification of the DFO_BIO CTD ingestion pipeline.

The repository reads large CSV archives in chunks, groups rows into vertical
profiles by a composite key, derives per-profile statistics (parsed timestamp,
shallowest/deepest depth) and assembles a two-level profile/observation table.

Two variants of the algorithm exist in the repository:
  * `read.py` (functions `get_date`, `process_chunks`, `create_dataset`,
    `read_DFO_BIO`) — shallowest depth is the minimum over all depths of a
    group, observations carry a `parent_index` back-reference;
  * `DFO_BIO_Arctic_1973_2013.py` (class `DFO_BIOReader`) — shallowest depth is
    the minimum over the *nonzero* depths of a group, no `parent_index`, extra
    per-profile row-size fields.

Both are embedded below.  Machine floats of the source (latitude, longitude,
depth, pressure, temperature, salinity) are modelled as `Int`: the pipeline
only moves these values around and compares them with `min`/`max`, and on
non-NaN floats those operations form the same linear order.
-/

/-- The local-timezone epoch conversion performed by Python's
`datetime.timestamp()` on a naive datetime: given year, month, day, hour and
minute of a local calendar moment it returns the corresponding seconds since
the Unix epoch.  It is an environment capability (depends on the host's
timezone database), so it is a parameter of the embedding. -/
abbrev EpochFn := Nat → Nat → Nat → Nat → Nat → Int

/-- Python `str.split(sep)` for a single-character separator, on `List Char`.
`splitOnChar c s` always returns a nonempty list; splitting the empty string
yields `[[]]`, like Python's `"".split(sep) == [""]`. -/
def splitOnChar (sep : Char) : List Char → List (List Char)
  | [] => [[]]
  | c :: cs =>
    let rest := splitOnChar sep cs
    if c = sep then [] :: rest
    else
      match rest with
      | [] => [[c]]
      | r :: rs => (c :: r) :: rs

/-- Digit value of an ASCII digit character. -/
def digitVal (c : Char) : Nat := c.toNat - 48

/-- ASCII decimal digit test (`0`–`9`). -/
def pyDigit (c : Char) : Bool := decide (48 ≤ c.toNat) && decide (c.toNat ≤ 57)

/-- A nonempty run of ASCII decimal digits, as a natural number.  (Spec-side
helper: the plain-digit-run form every timestamp component of this archive
takes; on such runs Python's `int()` returns exactly this value.) -/
def parseDigits (cs : List Char) : Option Nat :=
  if cs.isEmpty then none
  else if cs.all pyDigit then
    some (cs.foldl (fun a c => a * 10 + digitVal c) 0)
  else none

/-- The whitespace characters `int(str)` strips, per CPython's Unicode
whitespace table: TAB–CR, FS–US and space, NEL, NBSP, Ogham space mark, the
U+2000–U+200A spaces, line/paragraph separator, narrow no-break space, medium
mathematical space and ideographic space. -/
def pySpace (c : Char) : Bool :=
  let n := c.toNat
  (decide (9 ≤ n) && decide (n ≤ 13)) || (decide (28 ≤ n) && decide (n ≤ 32)) ||
  decide (n = 133) || decide (n = 160) || decide (n = 5760) ||
  (decide (8192 ≤ n) && decide (n ≤ 8202)) || decide (n = 8232) ||
  decide (n = 8233) || decide (n = 8239) || decide (n = 8287) || decide (n = 12288)

/-- Continuation of `int(str)` digit parsing after the first digit: further
digits, with single underscores allowed between digits (`int("2_2") == 22`;
leading, trailing or doubled underscores raise `ValueError`). -/
def digitsU (acc : Nat) : List Char → Option Nat
  | [] => some acc
  | c :: cs =>
    if c = '_' then
      match cs with
      | c2 :: cs2 => if pyDigit c2 then digitsU (acc * 10 + digitVal c2) cs2 else none
      | [] => none
    else if pyDigit c then digitsU (acc * 10 + digitVal c) cs
    else none

/-- The digit part of `int(str)` after sign handling: a digit followed by
digits with single underscores between them. -/
def pyIntBody : List Char → Option Nat
  | [] => none
  | c :: cs => if pyDigit c then digitsU (digitVal c) cs else none

/-- Python's `int(str)`: strips surrounding whitespace (the full CPython
whitespace set, `pySpace`), accepts an optional single sign directly followed
by a nonempty digit run with single underscores between digits, otherwise
raises `ValueError` (modelled as `none`).  Non-ASCII Unicode decimal digits
(e.g. fullwidth digits), which `int()` also accepts, are not modelled; no
theorem below depends on `pyInt`'s behaviour on them. -/
def pyInt (cs : List Char) : Option Int :=
  let t := ((cs.dropWhile pySpace).reverse.dropWhile pySpace).reverse
  match t with
  | [] => none
  | c :: rest =>
    if c = '-' then (pyIntBody rest).map (fun n => -(n : Int))
    else if c = '+' then (pyIntBody rest).map (fun n => (n : Int))
    else (pyIntBody (c :: rest)).map (fun n => (n : Int))

/-- Gregorian leap-year test, as used by Python's `datetime`. -/
def isLeapYear (y : Int) : Bool := y % 4 == 0 && (y % 100 != 0 || y % 400 == 0)

/-- Number of days in a month, as validated by Python's `datetime`. -/
def daysInMonth (y m : Int) : Int :=
  if m = 2 then (if isLeapYear y then 29 else 28)
  else if m = 4 ∨ m = 6 ∨ m = 9 ∨ m = 11 then 30
  else 31

/-- The argument validation performed by the `datetime(y, m, d, h, mi)`
constructor; out-of-range arguments raise `ValueError`. -/
def datetimeOkB (y m d h mi : Int) : Bool :=
  decide (1 ≤ y) && decide (y ≤ 9999) &&
  decide (1 ≤ m) && decide (m ≤ 12) &&
  decide (1 ≤ d) && decide (d ≤ daysInMonth y m) &&
  decide (0 ≤ h) && decide (h ≤ 23) &&
  decide (0 ≤ mi) && decide (mi ≤ 59)

/-- ASCII digit character of a digit value. -/
def digitChar (n : Nat) : Char := Char.ofNat (48 + n)

/-- Decimal digits, most significant first; structural recursion on a fuel
argument so that the definition unfolds by `rfl`. -/
def natDigitsAux : Nat → Nat → List Char
  | 0, n => [digitChar n]
  | fuel + 1, n =>
    if n < 10 then [digitChar n]
    else natDigitsAux fuel (n / 10) ++ [digitChar (n % 10)]

/-- Decimal digits of a natural number, most significant first (`n` itself is
always enough fuel: the digit count of `n` is at most `n`). -/
def natDigits (n : Nat) : List Char := natDigitsAux n n

/-- Zero-pad to two digits (the `%m %d %H %M %S` strftime directives). -/
def pad2 (n : Nat) : List Char := if n < 10 then '0' :: natDigits n else natDigits n

/-- Zero-pad to four digits (the `%Y` strftime directive). -/
def pad4 (n : Nat) : List Char :=
  if n < 10 then '0' :: '0' :: '0' :: natDigits n
  else if n < 100 then '0' :: '0' :: natDigits n
  else if n < 1000 then '0' :: natDigits n
  else natDigits n

/-- `datetime.strftime(dt, "%Y/%m/%d %H:%M:%S")` on a datetime whose seconds
field is zero (the constructor in `get_date` never sets seconds). -/
def fmtDatetime (y mo d h mi : Nat) : String :=
  String.mk (pad4 y ++ '/' :: pad2 mo ++ '/' :: pad2 d ++ ' ' :: pad2 h
    ++ ':' :: pad2 mi ++ ':' :: pad2 0)

/-- `read.get_date` (identical to
`DFO_BIOReader.parse_datestr_to_datetime_objects_and_timestamps`): split the
timestamp string on `T`, the time part on `:` and the date part on `-`, build
`datetime(int(year), int(month), int(day), int(hour), int(minutes))`, and
return the `"%Y/%m/%d %H:%M:%S"` rendering together with
`datetime.timestamp()`.  Any uncaught `IndexError`/`ValueError` of the source
is `none`. -/
def get_date (f : EpochFn) (s : String) : Option (String × Int) := do
  let parts := splitOnChar 'T' s.data
  let date ← parts[0]?
  let time ← parts[1]?
  let tparts := splitOnChar ':' time
  let hour ← tparts[0]?
  let minutes ← tparts[1]?
  let dparts := splitOnChar '-' date
  let year ← dparts[0]?
  let month ← dparts[1]?
  let day ← dparts[2]?
  let y ← pyInt year
  let mo ← pyInt month
  let d ← pyInt day
  let h ← pyInt hour
  let mi ← pyInt minutes
  if datetimeOkB y mo d h mi then
    pure (fmtDatetime y.toNat mo.toNat d.toNat h.toNat mi.toNat,
      f y.toNat mo.toNat d.toNat h.toNat mi.toNat)
  else none

example : splitOnChar 'T' ("1998-07-14T03:22:00").data =
    [['1','9','9','8','-','0','7','-','1','4'], ['0','3',':','2','2',':','0','0']] := by
  decide

example (f : EpochFn) :
    get_date f "1998-07-14T03:22:00" = some ("1998/07/14 03:22:00", f 1998 7 14 3 22) := by
  rfl

example : get_date (fun _ _ _ _ _ => 0) "1998-13-01T03:22" = none := by decide

/-! ## Data model -/

/-- The composite grouping key of `process_chunks`: the nine columns passed to
`chunk.groupby([...])`, in source order.  Rows of a chunk sharing one key value
form one profile group. -/
structure ProfileKey where
  platform_name : String
  chief_scientist : String
  cruise_name : String
  cruise_number : String
  id : String
  event_number : String
  latitude : Int
  longitude : Int
  time : String
deriving DecidableEq

/-- One CSV data record: its grouping key together with the four measurement
columns `depth`, `TEMPPR01`, `PRESPR01`, `PSLTZZ01`. -/
structure RawRow where
  key : ProfileKey
  depth : Int
  TEMPPR01 : Int
  PRESPR01 : Int
  PSLTZZ01 : Int
deriving DecidableEq

/-- The `data_lists` dictionary built by `read.initialize_variables`: one list
per attribute, profile-level attributes appended once per group and
observation-level attributes extended with one entry per raw row. -/
structure DataLists where
  platform : List String
  chief_scientist : List String
  cruise_name : List String
  orig_cruise_id : List String
  orig_profile_id : List String
  lat : List Int
  lon : List Int
  datestr : List String
  timestamp : List Int
  depth : List Int
  temp : List Int
  press : List Int
  psal : List Int
  shallowest_depth : List Int
  deepest_depth : List Int
  parent_index : List Nat
deriving DecidableEq

/-- The freshly initialized `data_lists` of `read.initialize_variables`:
every attribute list empty. -/
def emptyDataLists : DataLists :=
  { platform := [], chief_scientist := [], cruise_name := [], orig_cruise_id := []
  , orig_profile_id := [], lat := [], lon := [], datestr := [], timestamp := []
  , depth := [], temp := [], press := [], psal := []
  , shallowest_depth := [], deepest_depth := [], parent_index := [] }

/-- Python's builtin `min` over a nonempty sequence; `min([])` raises
`ValueError`, modelled as `none`. -/
def pymin : List Int → Option Int
  | [] => none
  | x :: xs => some (xs.foldl min x)

/-- Python's builtin `max` over a nonempty sequence; `max([])` raises
`ValueError`, modelled as `none`. -/
def pymax : List Int → Option Int
  | [] => none
  | x :: xs => some (xs.foldl max x)

/-- The boolean mask `data["depth"] != 0` used by the Arctic variant's
shallowest-depth selection. -/
def nonzeroB (d : Int) : Bool := decide (d ≠ 0)

/-- Fuel-driven helper for `distinctKeys` (structural recursion on the fuel so
the definition computes by `rfl`/`decide`; `l.length` is always enough fuel). -/
def distinctKeysAux : Nat → List ProfileKey → List ProfileKey
  | _, [] => []
  | 0, _ :: _ => []
  | fuel + 1, k :: ks => k :: distinctKeysAux fuel (ks.filter (fun x => decide (x ≠ k)))

/-- The distinct values of a list, first occurrence first.  This enumerates the
group keys produced by `DataFrame.groupby` within one chunk (pandas iterates
groups in sorted key order; no claim below depends on the enumeration order,
only on which groups exist and that there is exactly one group per distinct
key in the chunk). -/
def distinctKeys (l : List ProfileKey) : List ProfileKey :=
  distinctKeysAux l.length l

/-- `chunk.groupby([...])` of `process_chunks`: one group per distinct key of
the chunk, each group holding every row of the chunk with that key, in row
order. -/
def groupby (chunk : List RawRow) : List (ProfileKey × List RawRow) :=
  (distinctKeys (chunk.map RawRow.key)).map
    (fun k => (k, chunk.filter (fun r => decide (r.key = k))))

/-- All groups produced over a whole file: each chunk is grouped independently
(`groupby` runs per chunk inside the `for chunk in reader` loop). -/
def groupsOf (chunks : List (List RawRow)) : List (ProfileKey × List RawRow) :=
  chunks.flatMap groupby

/-- The sequence of group keys emitted over a whole file, one per group: a key
appears once for every chunk containing it. -/
def emittedKeys (chunks : List (List RawRow)) : List ProfileKey :=
  chunks.flatMap (fun c => distinctKeys (c.map RawRow.key))

/-- The `parent_index` entries contributed by a list of groups when the first
group is assigned index `i`: `[i] * len(group)` blocks with the index advancing
by one per group. -/
def parentIndexBlocks (i : Nat) : List (ProfileKey × List RawRow) → List Nat
  | [] => []
  | g :: gs => List.replicate g.2.length i ++ parentIndexBlocks (i + 1) gs

/-- The body of the `for group, data in grouped_df` loop of
`read.process_chunks` for one group: append the key attributes
(`event_number` is discarded by the `_` in the unpacking), parse the time
string with `get_date`, extend the four observation columns, append
`min(data.depth)`, `max(data.depth)` and the `[i] * len(data.depth)` parent
indices.  `none` models an uncaught exception (bad timestamp, or `min`/`max`
on an empty group — the latter never happens for `groupby` output). -/
def processGroup (f : EpochFn) (i : Nat) (k : ProfileKey) (rows : List RawRow)
    (dl : DataLists) : Option DataLists :=
  match get_date f k.time, pymin (rows.map RawRow.depth), pymax (rows.map RawRow.depth) with
  | some dt, some mn, some mx =>
    some { platform := dl.platform ++ [k.platform_name]
         , chief_scientist := dl.chief_scientist ++ [k.chief_scientist]
         , cruise_name := dl.cruise_name ++ [k.cruise_name]
         , orig_cruise_id := dl.orig_cruise_id ++ [k.cruise_number]
         , orig_profile_id := dl.orig_profile_id ++ [k.id]
         , lat := dl.lat ++ [k.latitude]
         , lon := dl.lon ++ [k.longitude]
         , datestr := dl.datestr ++ [dt.1]
         , timestamp := dl.timestamp ++ [dt.2]
         , depth := dl.depth ++ rows.map RawRow.depth
         , temp := dl.temp ++ rows.map RawRow.TEMPPR01
         , press := dl.press ++ rows.map RawRow.PRESPR01
         , psal := dl.psal ++ rows.map RawRow.PSLTZZ01
         , shallowest_depth := dl.shallowest_depth ++ [mn]
         , deepest_depth := dl.deepest_depth ++ [mx]
         , parent_index := dl.parent_index ++ List.replicate rows.length i }
  | _, _, _ => none

/-- The inner group loop of `read.process_chunks` over the groups of one
chunk, threading the profile counter `i` (incremented by `i += 1` once per
group) and the accumulating `data_lists`. -/
def processGroups (f : EpochFn) :
    List (ProfileKey × List RawRow) → Nat → DataLists → Option (Nat × DataLists)
  | [], i, dl => some (i, dl)
  | g :: gs, i, dl =>
    match processGroup f i g.1 g.2 dl with
    | some dl1 => processGroups f gs (i + 1) dl1
    | none => none

/-- The outer `for chunk in reader` loop of `read.process_chunks`: each chunk
is grouped independently and the counter carries over from chunk to chunk. -/
def chunksLoop (f : EpochFn) :
    List (List RawRow) → Nat → DataLists → Option (Nat × DataLists)
  | [], i, dl => some (i, dl)
  | c :: cs, i, dl =>
    match processGroups f (groupby c) i dl with
    | some (i1, dl1) => chunksLoop f cs i1 dl1
    | none => none

/-- `read.process_chunks`: sets `i = 0` and runs the chunk loop, returning the
final counter value together with the filled `data_lists`. -/
def process_chunks (f : EpochFn) (chunks : List (List RawRow)) (dl : DataLists) :
    Option (Nat × DataLists) :=
  chunksLoop f chunks 0 dl

/-- `read.read_DFO_BIO`, up to the external CSV reader and serializer: fresh
`data_lists`, then `process_chunks` over the file's chunks. -/
def read_DFO_BIO (f : EpochFn) (chunks : List (List RawRow)) : Option (Nat × DataLists) :=
  process_chunks f chunks emptyDataLists

/-! ## The `DFO_BIO_Arctic_1973_2013.py` variant (`class DFO_BIOReader`)

Same chunked grouping, but: shallowest depth is
`min(data["depth"][data["depth"] != 0])` (zero readings excluded), there is no
`parent_index`, and four per-profile row-size attributes are recorded.  Its
date parser `parse_datestr_to_datetime_objects_and_timestamps` is line-for-line
identical to `read.get_date`, so `get_date` is reused. -/

namespace Arctic

/-- The `data_lists` dictionary of `DFO_BIOReader.initialize_variables`. -/
structure DataLists where
  platform : List String
  chief_scientist : List String
  cruise_name : List String
  orig_cruise_id : List String
  orig_profile_id : List String
  lat : List Int
  lon : List Int
  datestr : List String
  timestamp : List Int
  depth : List Int
  temp : List Int
  press : List Int
  psal : List Int
  shallowest_depth : List Int
  deepest_depth : List Int
  depth_row_size : List Nat
  press_row_size : List Nat
  temp_row_size : List Nat
  psal_row_size : List Nat
deriving DecidableEq

/-- Freshly initialized Arctic `data_lists`: every attribute list empty. -/
def emptyDataLists : DataLists :=
  { platform := [], chief_scientist := [], cruise_name := [], orig_cruise_id := []
  , orig_profile_id := [], lat := [], lon := [], datestr := [], timestamp := []
  , depth := [], temp := [], press := [], psal := []
  , shallowest_depth := [], deepest_depth := []
  , depth_row_size := [], press_row_size := [], temp_row_size := [], psal_row_size := [] }

/-- The group-loop body of `DFO_BIOReader.process_chunks` for one group.  The
shallowest depth is the minimum of the *nonzero* depths of the group
(`data["depth"][data["depth"] != 0]`); if every depth of the group is zero
this selection is empty and `min` raises `ValueError` (`none`). -/
def processGroup (f : EpochFn) (k : ProfileKey) (rows : List RawRow)
    (dl : DataLists) : Option DataLists :=
  match get_date f k.time,
      pymin ((rows.map RawRow.depth).filter nonzeroB),
      pymax (rows.map RawRow.depth) with
  | some dt, some mn, some mx =>
    some { platform := dl.platform ++ [k.platform_name]
         , chief_scientist := dl.chief_scientist ++ [k.chief_scientist]
         , cruise_name := dl.cruise_name ++ [k.cruise_name]
         , orig_cruise_id := dl.orig_cruise_id ++ [k.cruise_number]
         , orig_profile_id := dl.orig_profile_id ++ [k.id]
         , lat := dl.lat ++ [k.latitude]
         , lon := dl.lon ++ [k.longitude]
         , datestr := dl.datestr ++ [dt.1]
         , timestamp := dl.timestamp ++ [dt.2]
         , depth := dl.depth ++ rows.map RawRow.depth
         , temp := dl.temp ++ rows.map RawRow.TEMPPR01
         , press := dl.press ++ rows.map RawRow.PRESPR01
         , psal := dl.psal ++ rows.map RawRow.PSLTZZ01
         , shallowest_depth := dl.shallowest_depth ++ [mn]
         , deepest_depth := dl.deepest_depth ++ [mx]
         , depth_row_size := dl.depth_row_size ++ [rows.length]
         , press_row_size := dl.press_row_size ++ [rows.length]
         , temp_row_size := dl.temp_row_size ++ [rows.length]
         , psal_row_size := dl.psal_row_size ++ [rows.length] }
  | _, _, _ => none

/-- The inner group loop of `DFO_BIOReader.process_chunks` (no index
counter: the Arctic variant keeps no `parent_index`). -/
def processGroups (f : EpochFn) :
    List (ProfileKey × List RawRow) → DataLists → Option DataLists
  | [], dl => some dl
  | g :: gs, dl =>
    match processGroup f g.1 g.2 dl with
    | some dl1 => processGroups f gs dl1
    | none => none

/-- `DFO_BIOReader.process_chunks`: the `for chunk in reader` loop, each chunk
grouped independently. -/
def process_chunks (f : EpochFn) :
    List (List RawRow) → DataLists → Option DataLists
  | [], dl => some dl
  | c :: cs, dl =>
    match processGroups f (groupby c) dl with
    | some dl1 => process_chunks f cs dl1
    | none => none

end Arctic

/-! ## Output file naming (`create_dataset`) -/

/-- Index of the last `'/'` in a character list, if any — Python's
`str.rfind("/")` with `-1` («not found») mapped to `none`. -/
def lastSlashIdx : List Char → Option Nat
  | [] => none
  | c :: cs =>
    match lastSlashIdx cs with
    | some j => some (j + 1)
    | none => if c = '/' then some 0 else none

/-- The output file name computed by `read.create_dataset` (and identically by
`DFO_BIOReader.create_dataset`):
`file_name = data_path[data_path.rfind("/") + 1 : -4]` followed by
`f"{file_name}_raw.nc"`.  Python slicing semantics: the negative stop index is
`len - 4` clamped below at `0`, and an empty slice results when the start is
not before the stop. -/
def output_file_name (data_path : String) : String :=
  let cs := data_path.data
  let start : Nat :=
    match lastSlashIdx cs with
    | some j => j + 1
    | none => 0
  let stop : Nat := cs.length - 4
  String.mk (((cs.take stop).drop start) ++ ("_raw.nc").data)

example : output_file_name "/a/b/data.csv" = "data_raw.nc" := by decide
example : output_file_name "/d/data.json" = "data._raw.nc" := by decide

/-! ## Characterization of a successful run of `DFO_BIOReader.process_chunks` -/

/-- What the Arctic group loop does to the depth-statistics lists: shallowest
is the minimum over the nonzero depths of each group, deepest the maximum over
all of them; on success every group had at least one nonzero depth. -/
def GroupsOutA (dl : Arctic.DataLists) (gs : List (ProfileKey × List RawRow))
    (dl' : Arctic.DataLists) : Prop :=
  dl'.shallowest_depth = dl.shallowest_depth
      ++ gs.map (fun g =>
        (pymin ((g.2.map RawRow.depth).filter nonzeroB)).getD 0) ∧
  dl'.deepest_depth = dl.deepest_depth
      ++ gs.map (fun g => (pymax (g.2.map RawRow.depth)).getD 0) ∧
  (∀ g ∈ gs, (g.2.map RawRow.depth).filter nonzeroB ≠ [])

theorem arctic_groupsOut_nil (dl : Arctic.DataLists) : GroupsOutA dl [] dl := by
  refine ⟨by simp, by simp, by simp⟩

theorem arctic_groupsOut_trans {dl : Arctic.DataLists}
    {gs1 gs2 : List (ProfileKey × List RawRow)} {dl1 dl' : Arctic.DataLists}
    (h1 : GroupsOutA dl gs1 dl1) (h2 : GroupsOutA dl1 gs2 dl') :
    GroupsOutA dl (gs1 ++ gs2) dl' := by
  obtain ⟨a1, b1, n1⟩ := h1
  obtain ⟨a2, b2, n2⟩ := h2
  refine ⟨?_, ?_, ?_⟩
  · rw [a2, a1]; simp [List.append_assoc]
  · rw [b2, b1]; simp [List.append_assoc]
  · intro g hg
    rcases List.mem_append.mp hg with h | h
    · exact n1 g h
    · exact n2 g h

theorem arctic_processGroups_out (f : EpochFn) :
    ∀ (gs : List (ProfileKey × List RawRow)) (dl dl' : Arctic.DataLists),
      Arctic.processGroups f gs dl = some dl' → GroupsOutA dl gs dl'
  | [], dl, dl', h => by
    simp only [Arctic.processGroups, Option.some.injEq] at h
    subst h
    exact arctic_groupsOut_nil dl
  | g :: gs, dl, dl', h => by
    rw [Arctic.processGroups] at h
    cases hpg : Arctic.processGroup f g.1 g.2 dl with
    | none => rw [hpg] at h; exact absurd h (by simp)
    | some dl1 =>
      rw [hpg] at h
      simp only at h
      have ih := arctic_processGroups_out f gs dl1 dl' h
      rw [Arctic.processGroup] at hpg
      cases hd : get_date f g.1.time with
      | none => rw [hd] at hpg; exact absurd hpg (by simp)
      | some dt =>
        cases hmn : pymin ((g.2.map RawRow.depth).filter nonzeroB) with
        | none => rw [hd, hmn] at hpg; exact absurd hpg (by simp)
        | some mn =>
          cases hmx : pymax (g.2.map RawRow.depth) with
          | none => rw [hd, hmn, hmx] at hpg; exact absurd hpg (by simp)
          | some mx =>
            rw [hd, hmn, hmx] at hpg
            simp only [Option.some.injEq] at hpg
            obtain ⟨a2, b2, n2⟩ := ih
            subst hpg
            refine ⟨?_, ?_, ?_⟩
            · rw [a2]; simp [List.append_assoc, hmn]
            · rw [b2]; simp [List.append_assoc, hmx]
            · intro g0 hg0
              rcases List.mem_cons.mp hg0 with hh | hh
              · subst hh
                intro hnil
                rw [hnil] at hmn
                simp [pymin] at hmn
              · exact n2 g0 hh

theorem arctic_process_chunks_out (f : EpochFn) :
    ∀ (cs : List (List RawRow)) (dl dl' : Arctic.DataLists),
      Arctic.process_chunks f cs dl = some dl' → GroupsOutA dl (groupsOf cs) dl'
  | [], dl, dl', h => by
    simp only [Arctic.process_chunks, Option.some.injEq] at h
    subst h
    exact arctic_groupsOut_nil dl
  | c :: cs, dl, dl', h => by
    rw [Arctic.process_chunks] at h
    cases hpg : Arctic.processGroups f (groupby c) dl with
    | none => rw [hpg] at h; exact absurd h (by simp)
    | some dl1 =>
      rw [hpg] at h
      simp only at h
      have h1 := arctic_processGroups_out f (groupby c) dl dl1 hpg
      have h2 := arctic_process_chunks_out f cs dl1 dl' h
      exact arctic_groupsOut_trans h1 h2

/-! ## Concrete sample data (used by witnesses and counterexamples) -/

/-- A concrete local-epoch function (e.g. a UTC host). -/
def epoch0 : EpochFn := fun _ _ _ _ _ => 0

/-- A different concrete local-epoch function (a host in another timezone). -/
def epoch1 : EpochFn := fun _ _ _ _ _ => 3600

/-- Sample grouping key. -/
def K1 : ProfileKey :=
  { platform_name := "ship A", chief_scientist := "cs", cruise_name := "cr"
  , cruise_number := "17", id := "station 1", event_number := "e1"
  , latitude := 74, longitude := -80, time := "1998-07-14T03:22:00" }

/-- A second sample key, differing from `K1` in its station id. -/
def K2 : ProfileKey := { K1 with id := "station 2" }

/-- Row with key `K1`, depth 5. -/
def r1 : RawRow := { key := K1, depth := 5, TEMPPR01 := 1, PRESPR01 := 6, PSLTZZ01 := 30 }

/-- Row with key `K1`, depth 10. -/
def r2 : RawRow := { key := K1, depth := 10, TEMPPR01 := 2, PRESPR01 := 11, PSLTZZ01 := 31 }

/-- Row with key `K2`, depth 0. -/
def r3 : RawRow := { key := K2, depth := 0, TEMPPR01 := 3, PRESPR01 := 1, PSLTZZ01 := 32 }

/-- Row with key `K1`, depth 0 (for the zero-exclusion counterexample). -/
def r0 : RawRow := { key := K1, depth := 0, TEMPPR01 := 4, PRESPR01 := 1, PSLTZZ01 := 33 }

example : ( read_DFO_BIO epoch0 [[r1, r2], [r3]]).map Prod.fst = some 2 := by decide

/-! ## Lemmas about `distinctKeys` -/

theorem distinctKeysAux_fuel_eq : ∀ (l : List ProfileKey) (fuel1 fuel2 : Nat),
    l.length ≤ fuel1 → l.length ≤ fuel2 →
    distinctKeysAux fuel1 l = distinctKeysAux fuel2 l
  | [], f1, f2, _, _ => by cases f1 <;> cases f2 <;> rfl
  | k :: ks, 0, _, h1, _ => by simp at h1
  | k :: ks, _ + 1, 0, _, h2 => by simp at h2
  | k :: ks, f1 + 1, f2 + 1, h1, h2 => by
    simp only [distinctKeysAux, List.cons.injEq, true_and]
    have hle := List.length_filter_le (fun x => decide (x ≠ k)) ks
    have h1' : ks.length ≤ f1 := by simp at h1; omega
    have h2' : ks.length ≤ f2 := by simp at h2; omega
    exact distinctKeysAux_fuel_eq _ f1 f2 (le_trans hle h1') (le_trans hle h2')
  termination_by l => l.length
  decreasing_by
    simp only [List.length_cons]
    exact Nat.lt_succ_of_le (List.length_filter_le _ _)

theorem distinctKeys_nil : distinctKeys [] = [] := rfl

theorem distinctKeys_cons (k : ProfileKey) (ks : List ProfileKey) :
    distinctKeys (k :: ks)
      = k :: distinctKeys (ks.filter (fun x => decide (x ≠ k))) := by
  show distinctKeysAux (ks.length + 1) (k :: ks) = _
  simp only [distinctKeysAux, List.cons.injEq, true_and]
  exact distinctKeysAux_fuel_eq _ ks.length _ (List.length_filter_le _ _) le_rfl

theorem mem_distinctKeys : ∀ (l : List ProfileKey) (a : ProfileKey),
    a ∈ distinctKeys l ↔ a ∈ l
  | [], a => Iff.rfl
  | k :: ks, a => by
    rw [distinctKeys_cons, List.mem_cons,
      mem_distinctKeys (ks.filter (fun x => decide (x ≠ k))) a, List.mem_filter]
    by_cases h : a = k <;> simp [h]
  termination_by l _ => l.length
  decreasing_by
    simp only [List.length_cons]
    exact Nat.lt_succ_of_le (List.length_filter_le _ _)

theorem nodup_distinctKeys : ∀ (l : List ProfileKey), (distinctKeys l).Nodup
  | [] => List.nodup_nil
  | k :: ks => by
    rw [distinctKeys_cons]
    refine List.nodup_cons.mpr ⟨?_, nodup_distinctKeys _⟩
    rw [mem_distinctKeys, List.mem_filter]
    simp
  termination_by l => l.length
  decreasing_by
    simp only [List.length_cons]
    exact Nat.lt_succ_of_le (List.length_filter_le _ _)

theorem count_distinctKeys (l : List ProfileKey) (a : ProfileKey) :
    (distinctKeys l).count a = if a ∈ l then 1 else 0 := by
  by_cases h : a ∈ l
  · rw [if_pos h]
    exact List.count_eq_one_of_mem (nodup_distinctKeys l) ((mem_distinctKeys l a).mpr h)
  · rw [if_neg h]
    exact List.count_eq_zero_of_not_mem (fun hc => h ((mem_distinctKeys l a).mp hc))

theorem distinctKeys_append : ∀ (l1 l2 : List ProfileKey),
    (∀ a, a ∈ l1 → a ∉ l2) →
    distinctKeys (l1 ++ l2) = distinctKeys l1 ++ distinctKeys l2
  | [], l2, _ => by simp [distinctKeys_nil]
  | k :: ks, l2, h => by
    rw [List.cons_append, distinctKeys_cons, distinctKeys_cons, List.filter_append]
    have h2 : l2.filter (fun x => decide (x ≠ k)) = l2 := by
      refine List.filter_eq_self.mpr (fun a ha => ?_)
      simp only [decide_eq_true_eq]
      exact fun e => h k (List.mem_cons_self _ _) (e ▸ ha)
    rw [h2, distinctKeys_append (ks.filter (fun x => decide (x ≠ k))) l2
      (fun a ha => h a (List.mem_cons_of_mem _ (List.mem_of_mem_filter ha))),
      List.cons_append]
  termination_by l1 _ _ => l1.length
  decreasing_by
    simp only [List.length_cons]
    exact Nat.lt_succ_of_le (List.length_filter_le _ _)

/-! ## Lemmas about `pymin` / `pymax` -/

theorem foldl_min_mem : ∀ (xs : List Int) (x : Int), xs.foldl min x ∈ x :: xs
  | [], x => List.mem_singleton.mpr rfl
  | y :: ys, x => by
    have h := foldl_min_mem ys (min x y)
    rcases List.mem_cons.mp h with h | h
    · rcases min_choice x y with hc | hc <;> rw [List.foldl_cons, h, hc] <;> simp
    · simp [List.foldl_cons, List.mem_cons.mpr (Or.inr (List.mem_cons_of_mem _ h))]

theorem foldl_min_le : ∀ (xs : List Int) (x y : Int), y ∈ x :: xs → xs.foldl min x ≤ y
  | [], x, y, hy => by simp at hy; simp [hy]
  | z :: zs, x, y, hy => by
    rw [List.foldl_cons]
    rcases List.mem_cons.mp hy with h | h
    · exact le_trans (foldl_min_le zs (min x z) _ (List.mem_cons_self _ _)) (h ▸ min_le_left x z)
    · rcases List.mem_cons.mp h with h | h
      · exact le_trans (foldl_min_le zs (min x z) _ (List.mem_cons_self _ _)) (h ▸ min_le_right x z)
      · exact foldl_min_le zs (min x z) y (List.mem_cons_of_mem _ h)

theorem foldl_max_mem : ∀ (xs : List Int) (x : Int), xs.foldl max x ∈ x :: xs
  | [], x => List.mem_singleton.mpr rfl
  | y :: ys, x => by
    have h := foldl_max_mem ys (max x y)
    rcases List.mem_cons.mp h with h | h
    · rcases max_choice x y with hc | hc <;> rw [List.foldl_cons, h, hc] <;> simp
    · simp [List.foldl_cons, List.mem_cons.mpr (Or.inr (List.mem_cons_of_mem _ h))]

theorem le_foldl_max : ∀ (xs : List Int) (x y : Int), y ∈ x :: xs → y ≤ xs.foldl max x
  | [], x, y, hy => by simp at hy; simp [hy]
  | z :: zs, x, y, hy => by
    rw [List.foldl_cons]
    rcases List.mem_cons.mp hy with h | h
    · exact le_trans (h ▸ le_max_left x z) (le_foldl_max zs (max x z) _ (List.mem_cons_self _ _))
    · rcases List.mem_cons.mp h with h | h
      · exact le_trans (h ▸ le_max_right x z) (le_foldl_max zs (max x z) _ (List.mem_cons_self _ _))
      · exact le_foldl_max zs (max x z) y (List.mem_cons_of_mem _ h)

theorem pymin_mem {l : List Int} {m : Int} (h : pymin l = some m) : m ∈ l := by
  cases l with
  | nil => simp [pymin] at h
  | cons x xs =>
    simp only [pymin, Option.some.injEq] at h
    exact h ▸ foldl_min_mem xs x

theorem pymin_le {l : List Int} {m : Int} (h : pymin l = some m) :
    ∀ y ∈ l, m ≤ y := by
  cases l with
  | nil => simp [pymin] at h
  | cons x xs =>
    simp only [pymin, Option.some.injEq] at h
    exact fun y hy => h ▸ foldl_min_le xs x y hy

theorem pymax_mem {l : List Int} {m : Int} (h : pymax l = some m) : m ∈ l := by
  cases l with
  | nil => simp [pymax] at h
  | cons x xs =>
    simp only [pymax, Option.some.injEq] at h
    exact h ▸ foldl_max_mem xs x

theorem le_pymax {l : List Int} {m : Int} (h : pymax l = some m) :
    ∀ y ∈ l, y ≤ m := by
  cases l with
  | nil => simp [pymax] at h
  | cons x xs =>
    simp only [pymax, Option.some.injEq] at h
    exact fun y hy => h ▸ le_foldl_max xs x y hy

theorem pymin_isSome {l : List Int} (h : l ≠ []) : (pymin l).isSome := by
  cases l with
  | nil => exact absurd rfl h
  | cons x xs => rfl

theorem pymin_ne_nil {l : List Int} {m : Int} (h : pymin l = some m) : l ≠ [] := by
  cases l with
  | nil => simp [pymin] at h
  | cons x xs => simp

theorem pymax_isSome {l : List Int} (h : l ≠ []) : (pymax l).isSome := by
  cases l with
  | nil => exact absurd rfl h
  | cons x xs => rfl

/-! ## Lemmas about `parentIndexBlocks`, `groupby` and chunk key-disjointness -/

theorem parentIndexBlocks_append (gs1 gs2 : List (ProfileKey × List RawRow)) :
    ∀ i, parentIndexBlocks i (gs1 ++ gs2)
      = parentIndexBlocks i gs1 ++ parentIndexBlocks (i + gs1.length) gs2 := by
  induction gs1 with
  | nil => intro i; simp [parentIndexBlocks]
  | cons g gs ih =>
    intro i
    have h : i + 1 + gs.length = i + (g :: gs).length := by simp; omega
    calc parentIndexBlocks i ((g :: gs) ++ gs2)
        = List.replicate g.2.length i ++ parentIndexBlocks (i + 1) (gs ++ gs2) := rfl
      _ = List.replicate g.2.length i
            ++ (parentIndexBlocks (i + 1) gs ++ parentIndexBlocks (i + 1 + gs.length) gs2) := by
          rw [ih (i + 1)]
      _ = (List.replicate g.2.length i ++ parentIndexBlocks (i + 1) gs)
            ++ parentIndexBlocks (i + (g :: gs).length) gs2 := by
          rw [List.append_assoc, h]
      _ = parentIndexBlocks i (g :: gs) ++ parentIndexBlocks (i + (g :: gs).length) gs2 := rfl

theorem count_parentIndexBlocks_lt :
    ∀ (gs : List (ProfileKey × List RawRow)) (i j : Nat), j < i →
      (parentIndexBlocks i gs).count j = 0
  | [], _, _, _ => rfl
  | g :: gs, i, j, h => by
    have hne : ¬ (j = i) := by omega
    have hne2 : ¬ (i = j) := by omega
    simp [parentIndexBlocks, List.count_append, List.count_replicate, hne, hne2,
      count_parentIndexBlocks_lt gs (i + 1) j (by omega)]

theorem count_parentIndexBlocks :
    ∀ (gs : List (ProfileKey × List RawRow)) (i p : Nat) (g : ProfileKey × List RawRow),
      gs[p]? = some g → (parentIndexBlocks i gs).count (i + p) = g.2.length
  | [], _, p, _, hg => by simp at hg
  | g0 :: gs, i, 0, g, hg => by
    simp only [List.getElem?_cons_zero, Option.some.injEq] at hg
    subst hg
    simp [parentIndexBlocks, List.count_append, List.count_replicate,
      count_parentIndexBlocks_lt gs (i + 1) i (by omega)]
  | g0 :: gs, i, p + 1, g, hg => by
    simp only [List.getElem?_cons_succ] at hg
    have ih := count_parentIndexBlocks gs (i + 1) p g hg
    have hne : ¬ (i + (p + 1) = i) := by omega
    have harith : i + 1 + p = i + (p + 1) := by omega
    rw [harith] at ih
    simp [parentIndexBlocks, List.count_append, List.count_replicate, hne, ih]

/-- Two chunks have disjoint key sets: no key of `c1` is a key of `c2`.  The
spec's «no ProfileKey's rows span a chunk boundary» is pairwise disjointness of
the chunks' key sets. -/
def keyDisjoint (c1 c2 : List RawRow) : Prop :=
  ∀ r ∈ c1, r.key ∉ c2.map RawRow.key

instance (c1 c2 : List RawRow) : Decidable (keyDisjoint c1 c2) :=
  List.decidableBAll _ c1

theorem distinctKeys_flatten_of_pairwise :
    ∀ (cs : List (List RawRow)), cs.Pairwise keyDisjoint →
      distinctKeys ((cs.flatten).map RawRow.key) = emittedKeys cs
  | [], _ => rfl
  | c :: cs, hp => by
    have hp1 : ∀ c2 ∈ cs, keyDisjoint c c2 := (List.pairwise_cons.mp hp).1
    have hp2 : cs.Pairwise keyDisjoint := (List.pairwise_cons.mp hp).2
    have hdisj : ∀ a, a ∈ c.map RawRow.key → a ∉ (cs.flatten).map RawRow.key := by
      intro a ha hcontra
      obtain ⟨r, hr, hkey⟩ := List.mem_map.mp ha
      obtain ⟨r2, hr2, hkey2⟩ := List.mem_map.mp hcontra
      obtain ⟨c2, hc2, hrc2⟩ := List.mem_flatten.mp hr2
      exact hp1 c2 hc2 r hr (List.mem_map.mpr ⟨r2, hrc2, by rw [hkey2, hkey]⟩)
    calc distinctKeys (((c :: cs).flatten).map RawRow.key)
        = distinctKeys (c.map RawRow.key ++ (cs.flatten).map RawRow.key) := by
          simp [List.flatten_cons]
      _ = distinctKeys (c.map RawRow.key) ++ distinctKeys ((cs.flatten).map RawRow.key) :=
          distinctKeys_append _ _ hdisj
      _ = emittedKeys (c :: cs) := by
          rw [distinctKeys_flatten_of_pairwise cs hp2]; simp [emittedKeys]

theorem groupby_length (c : List RawRow) :
    (groupby c).length = (distinctKeys (c.map RawRow.key)).length := by
  simp [groupby]

theorem groupsOf_length (cs : List (List RawRow)) :
    (groupsOf cs).length = (emittedKeys cs).length := by
  induction cs with
  | nil => rfl
  | cons c cs ih => simp [groupsOf, emittedKeys, groupby_length] at ih ⊢; omega

theorem emittedKeys_length_sum (cs : List (List RawRow)) :
    (emittedKeys cs).length
      = (cs.map (fun c => (distinctKeys (c.map RawRow.key)).length)).sum := by
  induction cs with
  | nil => rfl
  | cons c cs ih => simp [emittedKeys] at ih ⊢; omega

theorem count_emittedKeys (cs : List (List RawRow)) (K : ProfileKey) :
    (emittedKeys cs).count K
      = cs.countP (fun c => decide (K ∈ c.map RawRow.key)) := by
  induction cs with
  | nil => rfl
  | cons c cs ih =>
    simp only [emittedKeys, List.flatMap_cons, List.count_append, List.countP_cons] at ih ⊢
    rw [count_distinctKeys, ih]
    by_cases h : K ∈ c.map RawRow.key <;> (simp [h]; try omega)

/-! ## Characterization of a successful run of `read.process_chunks` -/

/-- What one pass of the group loop of `read.process_chunks` over the group
list `gs` does to the accumulating state, starting at counter `i` and lists
`dl` and ending at counter `i'` and lists `dl'`. -/
def GroupsOut (i : Nat) (dl : DataLists) (gs : List (ProfileKey × List RawRow))
    (i' : Nat) (dl' : DataLists) : Prop :=
  i' = i + gs.length ∧
  dl'.depth = dl.depth ++ gs.flatMap (fun g => g.2.map RawRow.depth) ∧
  dl'.press = dl.press ++ gs.flatMap (fun g => g.2.map RawRow.PRESPR01) ∧
  dl'.temp = dl.temp ++ gs.flatMap (fun g => g.2.map RawRow.TEMPPR01) ∧
  dl'.psal = dl.psal ++ gs.flatMap (fun g => g.2.map RawRow.PSLTZZ01) ∧
  dl'.parent_index = dl.parent_index ++ parentIndexBlocks i gs ∧
  dl'.shallowest_depth
    = dl.shallowest_depth ++ gs.map (fun g => (pymin (g.2.map RawRow.depth)).getD 0) ∧
  dl'.deepest_depth
    = dl.deepest_depth ++ gs.map (fun g => (pymax (g.2.map RawRow.depth)).getD 0) ∧
  dl'.timestamp.length = dl.timestamp.length + gs.length ∧
  (∀ g ∈ gs, g.2 ≠ [])

theorem groupsOut_nil (i : Nat) (dl : DataLists) : GroupsOut i dl [] i dl := by
  refine ⟨by simp, ?_, ?_, ?_, ?_, ?_, ?_, ?_, by simp, by simp⟩ <;> simp [parentIndexBlocks]

theorem groupsOut_trans {i : Nat} {dl : DataLists} {gs1 gs2 : List (ProfileKey × List RawRow)}
    {i1 : Nat} {dl1 : DataLists} {i' : Nat} {dl' : DataLists}
    (h1 : GroupsOut i dl gs1 i1 dl1) (h2 : GroupsOut i1 dl1 gs2 i' dl') :
    GroupsOut i dl (gs1 ++ gs2) i' dl' := by
  obtain ⟨a1, b1, c1, d1, e1, f1, g1, hh1, t1, n1⟩ := h1
  obtain ⟨a2, b2, c2, d2, e2, f2, g2, hh2, t2, n2⟩ := h2
  refine ⟨by simp [a2, a1]; omega, ?_, ?_, ?_, ?_, ?_, ?_, ?_, by simp [t2, t1]; omega, ?_⟩
  · rw [b2, b1]; simp [List.append_assoc]
  · rw [c2, c1]; simp [List.append_assoc]
  · rw [d2, d1]; simp [List.append_assoc]
  · rw [e2, e1]; simp [List.append_assoc]
  · rw [f2, f1, List.append_assoc, parentIndexBlocks_append gs1 gs2 i, a1]
  · rw [g2, g1]; simp [List.append_assoc]
  · rw [hh2, hh1]; simp [List.append_assoc]
  · intro g hg
    rcases List.mem_append.mp hg with h | h
    · exact n1 g h
    · exact n2 g h

theorem processGroups_out (f : EpochFn) :
    ∀ (gs : List (ProfileKey × List RawRow)) (i : Nat) (dl : DataLists)
      (i' : Nat) (dl' : DataLists),
      processGroups f gs i dl = some (i', dl') → GroupsOut i dl gs i' dl'
  | [], i, dl, i', dl', h => by
    simp only [processGroups, Option.some.injEq, Prod.mk.injEq] at h
    obtain ⟨h1, h2⟩ := h
    subst h1; subst h2
    exact groupsOut_nil i dl
  | g :: gs, i, dl, i', dl', h => by
    rw [processGroups] at h
    cases hpg : processGroup f i g.1 g.2 dl with
    | none => rw [hpg] at h; exact absurd h (by simp)
    | some dl1 =>
      rw [hpg] at h
      simp only at h
      have ih := processGroups_out f gs (i + 1) dl1 i' dl' h
      rw [processGroup] at hpg
      cases hd : get_date f g.1.time with
      | none => rw [hd] at hpg; exact absurd hpg (by simp)
      | some dt =>
        cases hmn : pymin (g.2.map RawRow.depth) with
        | none => rw [hd, hmn] at hpg; exact absurd hpg (by simp)
        | some mn =>
          cases hmx : pymax (g.2.map RawRow.depth) with
          | none => rw [hd, hmn, hmx] at hpg; exact absurd hpg (by simp)
          | some mx =>
            rw [hd, hmn, hmx] at hpg
            simp only [Option.some.injEq] at hpg
            obtain ⟨a2, b2, c2, d2, e2, f2, g2, hh2, t2, n2⟩ := ih
            subst hpg
            refine ⟨by simp [a2]; omega, ?_, ?_, ?_, ?_, ?_, ?_, ?_, by simp [t2]; omega, ?_⟩
            · rw [b2]; simp [List.append_assoc]
            · rw [c2]; simp [List.append_assoc]
            · rw [d2]; simp [List.append_assoc]
            · rw [e2]; simp [List.append_assoc]
            · rw [f2]; simp only [parentIndexBlocks, List.append_assoc]
            · rw [g2]; simp [List.append_assoc, hmn]
            · rw [hh2]; simp [List.append_assoc, hmx]
            · intro g0 hg0
              rcases List.mem_cons.mp hg0 with hh | hh
              · subst hh
                intro hnil
                rw [hnil] at hmn
                simp [pymin] at hmn
              · exact n2 g0 hh

theorem chunksLoop_out (f : EpochFn) :
    ∀ (cs : List (List RawRow)) (i : Nat) (dl : DataLists) (i' : Nat) (dl' : DataLists),
      chunksLoop f cs i dl = some (i', dl') → GroupsOut i dl (groupsOf cs) i' dl'
  | [], i, dl, i', dl', h => by
    simp only [chunksLoop, Option.some.injEq, Prod.mk.injEq] at h
    obtain ⟨h1, h2⟩ := h
    subst h1; subst h2
    exact groupsOut_nil i dl
  | c :: cs, i, dl, i', dl', h => by
    rw [chunksLoop] at h
    cases hpg : processGroups f (groupby c) i dl with
    | none => rw [hpg] at h; exact absurd h (by simp)
    | some p =>
      rw [hpg] at h
      simp only at h
      have h1 := processGroups_out f (groupby c) i dl p.1 p.2 hpg
      have h2 := chunksLoop_out f cs p.1 p.2 i' dl' h
      exact groupsOut_trans h1 h2

theorem process_chunks_out (f : EpochFn) (cs : List (List RawRow)) (dl : DataLists)
    (i' : Nat) (dl' : DataLists) (h : process_chunks f cs dl = some (i', dl')) :
    GroupsOut 0 dl (groupsOf cs) i' dl' :=
  chunksLoop_out f cs 0 dl i' dl' h

example : ( read_DFO_BIO epoch0 [[r1, r2], [r3]]).map (fun p => p.2.parent_index) =
    some [0, 0, 1] := by decide

/-! ## Further structural lemmas -/

theorem parentIndexBlocks_length :
    ∀ (gs : List (ProfileKey × List RawRow)) (i : Nat),
      (parentIndexBlocks i gs).length = (gs.map (fun g => g.2.length)).sum
  | [], _ => rfl
  | g :: gs, i => by
    simp [parentIndexBlocks, parentIndexBlocks_length gs (i + 1)]

theorem flatMap_map_length {beta : Type} (F : RawRow → beta) :
    ∀ (gs : List (ProfileKey × List RawRow)),
      (gs.flatMap (fun g => g.2.map F)).length = (gs.map (fun g => g.2.length)).sum
  | [] => rfl
  | g :: gs => by simp [flatMap_map_length F gs]

theorem parentIndexBlocks_eq_range :
    ∀ (gs : List (ProfileKey × List RawRow)) (i : Nat),
      parentIndexBlocks i gs
        = (List.range gs.length).flatMap
            (fun p => List.replicate ((gs[p]?.map (fun g => g.2.length)).getD 0) (i + p))
  | [], _ => rfl
  | g :: gs, i => by
    rw [parentIndexBlocks, parentIndexBlocks_eq_range gs (i + 1), List.length_cons,
      List.range_succ_eq_map, List.flatMap_cons]
    congr 1
    · simp
    · rw [List.flatMap_map]
      refine List.flatMap_congr (fun p _ => ?_)
      have h1 : i + 1 + p = i + (p + 1) := by omega
      simp [h1]


/-! ## Claims -/

/-- C4: parsing the timestamp string `"1998-07-14T03:22:00"` yields the
normalized date string `"1998/07/14 03:22:00"` together with the numeric
timestamp `datetime.timestamp()` assigns to that local calendar moment —
whatever local-epoch conversion `f` the host provides, the result is `f`
applied to the parsed year/month/day/hour/minute.  Seconds are truncated to
zero: only year, month, day, hour and minute are read from the input, so the
same string with seconds `59` produces the identical result. -/
theorem c4_timestamp_scenario (f : EpochFn) :
    get_date f "1998-07-14T03:22:00" = some ("1998/07/14 03:22:00", f 1998 7 14 3 22) ∧
    get_date f "1998-07-14T03:22:59" = some ("1998/07/14 03:22:00", f 1998 7 14 3 22) :=
  ⟨rfl, rfl⟩

/-- C1: on a successful run of `read.process_chunks` over the chunks of a
file, the number of emitted profile indices (the final counter) equals the sum
over chunks of the number of distinct `ProfileKey`s in that chunk; when no
key's rows span a chunk boundary (the chunks' key sets are pairwise disjoint)
this is exactly the number of distinct keys of the whole file; and in general
every key is turned into one profile per chunk that contains it, so a key
split across two chunk reads becomes two separate profiles. -/
theorem c1_profile_count (f : EpochFn) (cs : List (List RawRow)) (n : Nat)
    (dl : DataLists) (h : process_chunks f cs emptyDataLists = some (n, dl)) :
    n = (cs.map (fun c => (distinctKeys (c.map RawRow.key)).length)).sum ∧
    (cs.Pairwise keyDisjoint →
      n = (distinctKeys ((cs.flatten).map RawRow.key)).length) ∧
    n = (emittedKeys cs).length ∧
    (∀ K : ProfileKey, (emittedKeys cs).count K
        = cs.countP (fun c => decide (K ∈ c.map RawRow.key))) := by
  have hout := process_chunks_out f cs emptyDataLists n dl h
  have hn : n = (groupsOf cs).length := by simpa using hout.1
  have hlen := groupsOf_length cs
  refine ⟨?_, ?_, ?_, fun K => count_emittedKeys cs K⟩
  · rw [hn, hlen, emittedKeys_length_sum]
  · intro hp
    rw [hn, hlen, distinctKeys_flatten_of_pairwise cs hp]
  · rw [hn, hlen]

/-- Concrete run used by the C1 witness: two chunks with one distinct key
each. -/
def c1run : Option (Nat × DataLists) := process_chunks epoch0 [[r1], [r3]] emptyDataLists

/-- Counter value of the C1 witness run. -/
def c1n : Nat := (c1run.map Prod.fst).getD 0

/-- Final data lists of the C1 witness run. -/
def c1dl : DataLists := (c1run.map Prod.snd).getD emptyDataLists

/-- Witness for C1: a concrete two-chunk input with disjoint keys, on which
the run succeeds with two profiles — the distinct-key count of the whole
file. -/
theorem c1_profile_count_witness :
    process_chunks epoch0 [[r1], [r3]] emptyDataLists = some (c1n, c1dl) ∧
    ([[r1], [r3]] : List (List RawRow)).Pairwise keyDisjoint ∧
    c1n = (distinctKeys ((([[r1], [r3]] : List (List RawRow)).flatten).map RawRow.key)).length ∧
    c1n = 2 := by
  have h : process_chunks epoch0 [[r1], [r3]] emptyDataLists = some (c1n, c1dl) := by decide
  have hc := c1_profile_count epoch0 [[r1], [r3]] c1n c1dl h
  exact ⟨h, by decide, hc.2.1 (by decide), by decide⟩

/-- C2: after a successful run of `read.process_chunks`, the assembled
observation table is aligned — the depth, pressure, temperature, salinity and
parent-index lists all have the same length — and for every profile position
`p` the number of `parent_index` entries equal to `p` is exactly the number of
raw rows in the `p`-th group of the file. -/
theorem c2_observation_alignment (f : EpochFn) (cs : List (List RawRow)) (n : Nat)
    (dl : DataLists) (h : process_chunks f cs emptyDataLists = some (n, dl)) :
    (dl.depth.length = dl.press.length ∧ dl.press.length = dl.temp.length ∧
     dl.temp.length = dl.psal.length ∧ dl.psal.length = dl.parent_index.length) ∧
    (∀ (p : Nat) (g : ProfileKey × List RawRow),
      (groupsOf cs)[p]? = some g → dl.parent_index.count p = g.2.length) := by
  obtain ⟨-, hdep, hpress, htemp, hpsal, hpi, -, -, -, -⟩ :=
    process_chunks_out f cs emptyDataLists n dl h
  simp only [emptyDataLists, List.nil_append] at hdep hpress htemp hpsal hpi
  constructor
  · rw [hdep, hpress, htemp, hpsal, hpi,
      flatMap_map_length RawRow.depth (groupsOf cs),
      flatMap_map_length RawRow.PRESPR01 (groupsOf cs),
      flatMap_map_length RawRow.TEMPPR01 (groupsOf cs),
      flatMap_map_length RawRow.PSLTZZ01 (groupsOf cs),
      parentIndexBlocks_length (groupsOf cs) 0]
    exact ⟨rfl, rfl, rfl, rfl⟩
  · intro p g hg
    rw [hpi]
    have := count_parentIndexBlocks (groupsOf cs) 0 p g hg
    simpa using this

/-- Concrete run used by the C2 witness. -/
def c2run : Option (Nat × DataLists) := process_chunks epoch0 [[r1, r2, r3]] emptyDataLists

/-- Final data lists of the C2 witness run. -/
def c2dl : DataLists := ((c2run.map Prod.snd).getD emptyDataLists)

/-- Witness for C2: one chunk holding a two-row group and a one-row group; the
observation lists are aligned and index 0 tags exactly the two rows of the
first group. -/
theorem c2_observation_alignment_witness :
    process_chunks epoch0 [[r1, r2, r3]] emptyDataLists = some (2, c2dl) ∧
    (groupsOf [[r1, r2, r3]])[0]? = some (K1, [r1, r2]) ∧
    c2dl.depth.length = c2dl.parent_index.length ∧
    c2dl.parent_index.count 0 = [r1, r2].length := by
  have h : process_chunks epoch0 [[r1, r2, r3]] emptyDataLists = some (2, c2dl) := by decide
  have hc := c2_observation_alignment epoch0 [[r1, r2, r3]] 2 c2dl h
  refine ⟨h, by decide, ?_, hc.2 0 (K1, [r1, r2]) (by decide)⟩
  obtain ⟨h1, h2, h3, h4⟩ := hc.1
  omega

/-- C3: profile indices are assigned in strict discovery order starting at 0:
on a successful run the final counter equals the number of groups of the whole
file, the `parent_index` list is the concatenation of the per-group constant
blocks starting at index 0, and that block list labels the `p`-th group of the
file (chunks in arrival order, counter never reset between chunks) with index
exactly `p` — one more per group, strictly increasing across the file. -/
theorem c3_index_assignment (f : EpochFn) (cs : List (List RawRow)) (n : Nat)
    (dl : DataLists) (h : process_chunks f cs emptyDataLists = some (n, dl)) :
    n = (groupsOf cs).length ∧
    dl.parent_index = parentIndexBlocks 0 (groupsOf cs) ∧
    parentIndexBlocks 0 (groupsOf cs)
      = (List.range (groupsOf cs).length).flatMap
          (fun p => List.replicate (((groupsOf cs)[p]?.map (fun g => g.2.length)).getD 0) p) := by
  obtain ⟨hn, -, -, -, -, hpi, -, -, -, -⟩ :=
    process_chunks_out f cs emptyDataLists n dl h
  refine ⟨by simpa using hn, by simpa [emptyDataLists] using hpi, ?_⟩
  have := parentIndexBlocks_eq_range (groupsOf cs) 0
  simpa using this

/-- Concrete run used by the C3 witness: a two-row group inside chunk 1 and a
one-row group inside chunk 2. -/
def c3run : Option (Nat × DataLists) := process_chunks epoch0 [[r1, r2], [r3]] emptyDataLists

/-- Final data lists of the C3 witness run. -/
def c3dl : DataLists := ((c3run.map Prod.snd).getD emptyDataLists)

/-- Witness for C3: the two groups get indices 0 and 1 (the counter carries
over the chunk boundary), and the parent-index list is `[0, 0, 1]`. -/
theorem c3_index_assignment_witness :
    process_chunks epoch0 [[r1, r2], [r3]] emptyDataLists = some (2, c3dl) ∧
    c3dl.parent_index = parentIndexBlocks 0 (groupsOf [[r1, r2], [r3]]) ∧
    c3dl.parent_index = [0, 0, 1] := by
  have h : process_chunks epoch0 [[r1, r2], [r3]] emptyDataLists = some (2, c3dl) := by decide
  have hc := c3_index_assignment epoch0 [[r1, r2], [r3]] 2 c3dl h
  exact ⟨h, hc.2.1, by decide⟩

/-- C8: the profile count, the observation count and the parent-index
partition are a deterministic function of the input chunks alone.  Two
successful runs over the same chunks — even on hosts whose local-timezone
epoch conversions differ, the only environment input of the processing stage
(the creation-date file attribute is produced later, by `create_dataset`) —
produce the same profile count, the same observation count and identical
parent-index partition sizes. -/
theorem c8_deterministic_rerun (f1 f2 : EpochFn) (cs : List (List RawRow))
    (n1 n2 : Nat) (dl1 dl2 : DataLists)
    (h1 : process_chunks f1 cs emptyDataLists = some (n1, dl1))
    (h2 : process_chunks f2 cs emptyDataLists = some (n2, dl2)) :
    n1 = n2 ∧ dl1.depth.length = dl2.depth.length ∧
    dl1.parent_index = dl2.parent_index ∧
    (∀ p : Nat, dl1.parent_index.count p = dl2.parent_index.count p) := by
  obtain ⟨a1, b1, -, -, -, f1', -, -, -, -⟩ := process_chunks_out f1 cs emptyDataLists n1 dl1 h1
  obtain ⟨a2, b2, -, -, -, f2', -, -, -, -⟩ := process_chunks_out f2 cs emptyDataLists n2 dl2 h2
  have hpi : dl1.parent_index = dl2.parent_index := by rw [f1', f2']
  exact ⟨by omega, by rw [b1, b2], hpi, fun p => by rw [hpi]⟩

/-- First run of the C8 witness (a UTC host). -/
def c8run1 : Option (Nat × DataLists) := process_chunks epoch0 [[r1, r2], [r3]] emptyDataLists

/-- Second run of the C8 witness (a host one hour east). -/
def c8run2 : Option (Nat × DataLists) := process_chunks epoch1 [[r1, r2], [r3]] emptyDataLists

/-- Final data lists of the first C8 run. -/
def c8dl1 : DataLists := ((c8run1.map Prod.snd).getD emptyDataLists)

/-- Final data lists of the second C8 run. -/
def c8dl2 : DataLists := ((c8run2.map Prod.snd).getD emptyDataLists)

/-- Witness for C8: re-running on the same chunks under a different timezone
gives the same counts and partition even though the stored timestamps
differ. -/
theorem c8_deterministic_rerun_witness :
    process_chunks epoch0 [[r1, r2], [r3]] emptyDataLists = some (2, c8dl1) ∧
    process_chunks epoch1 [[r1, r2], [r3]] emptyDataLists = some (2, c8dl2) ∧
    c8dl1.parent_index = c8dl2.parent_index ∧
    c8dl1.timestamp ≠ c8dl2.timestamp := by
  have h1 : process_chunks epoch0 [[r1, r2], [r3]] emptyDataLists = some (2, c8dl1) := by decide
  have h2 : process_chunks epoch1 [[r1, r2], [r3]] emptyDataLists = some (2, c8dl2) := by decide
  have hc := c8_deterministic_rerun epoch0 epoch1 [[r1, r2], [r3]] 2 2 c8dl1 c8dl2 h1 h2
  exact ⟨h1, h2, hc.2.2.1, by decide⟩

/-- On a nonempty list `pymin` is `some` of its `getD` default-stripped value. -/
theorem getD_pymin_eq {l : List Int} (h : l ≠ []) : some ((pymin l).getD 0) = pymin l := by
  cases l with
  | nil => exact absurd rfl h
  | cons x xs => rfl

/-- On a nonempty list `pymax` is `some` of its `getD` default-stripped value. -/
theorem getD_pymax_eq {l : List Int} (h : l ≠ []) : some ((pymax l).getD 0) = pymax l := by
  cases l with
  | nil => exact absurd rfl h
  | cons x xs => rfl

/-- What `read.process_chunks` stores for the `p`-th group: shallowest is the
minimum of all the group's depths, deepest their maximum. -/
theorem shallowest_deepest_spec (f : EpochFn) (cs : List (List RawRow)) (n : Nat)
    (dl : DataLists) (p : Nat) (g : ProfileKey × List RawRow)
    (h : process_chunks f cs emptyDataLists = some (n, dl))
    (hg : (groupsOf cs)[p]? = some g) :
    dl.shallowest_depth[p]? = pymin (g.2.map RawRow.depth) ∧
    dl.deepest_depth[p]? = pymax (g.2.map RawRow.depth) := by
  obtain ⟨-, -, -, -, -, -, hsh, hdp, -, hne⟩ :=
    process_chunks_out f cs emptyDataLists n dl h
  simp only [emptyDataLists, List.nil_append] at hsh hdp
  have hg2 : g.2 ≠ [] := hne g (List.getElem?_mem hg)
  have hmapne : g.2.map RawRow.depth ≠ [] := by
    intro hnil
    exact hg2 (List.map_eq_nil_iff.mp hnil)
  constructor
  · rw [hsh, List.getElem?_map, hg, Option.map_some']
    exact getD_pymin_eq hmapne
  · rw [hdp, List.getElem?_map, hg, Option.map_some']
    exact getD_pymax_eq hmapne

/-- What `DFO_BIOReader.process_chunks` stores for the `p`-th group:
shallowest is the minimum of the group's *nonzero* depths, deepest the maximum
of all of them. -/
theorem arctic_shallowest_deepest_spec (f : EpochFn) (cs : List (List RawRow))
    (dl : Arctic.DataLists) (p : Nat) (g : ProfileKey × List RawRow)
    (h : Arctic.process_chunks f cs Arctic.emptyDataLists = some dl)
    (hg : (groupsOf cs)[p]? = some g) :
    dl.shallowest_depth[p]? = pymin ((g.2.map RawRow.depth).filter nonzeroB) ∧
    dl.deepest_depth[p]? = pymax (g.2.map RawRow.depth) := by
  obtain ⟨hsh, hdp, hne⟩ := arctic_process_chunks_out f cs Arctic.emptyDataLists dl h
  simp only [Arctic.emptyDataLists, List.nil_append] at hsh hdp
  have hfil : (g.2.map RawRow.depth).filter nonzeroB ≠ [] := hne g (List.getElem?_mem hg)
  have hmapne : g.2.map RawRow.depth ≠ [] := by
    intro hnil
    rw [hnil] at hfil
    exact hfil rfl
  constructor
  · rw [hsh, List.getElem?_map, hg, Option.map_some']
    exact getD_pymin_eq hfil
  · rw [hdp, List.getElem?_map, hg, Option.map_some']
    exact getD_pymax_eq hmapne

/-- C5 counterexample: a group whose depths are 0 and 5.  The Arctic variant
(`DFO_BIOReader.process_chunks`, one of the two implementations the claim
covers) emits shallowest depth 5, but the minimum depth value of the group is
0 — the emitted shallowest depth is *not* the minimum depth of the group. -/
theorem c5_counterexample :
    groupsOf [[r0, r1]] = [(K1, [r0, r1])] ∧
    (Arctic.process_chunks epoch0 [[r0, r1]] Arctic.emptyDataLists).map
        Arctic.DataLists.shallowest_depth = some [5] ∧
    pymin ([r0, r1].map RawRow.depth) = some 0 ∧
    (5 : Int) ≠ 0 := by decide

/-- C5 amended: for every group, the `read.py` variant emits shallowest equal
to the minimum over *all* the group's depth values while the Arctic variant
emits the minimum over the group's *nonzero* depth values; both emit deepest
equal to the maximum over all the group's depths.  (For a group whose depths
are all nonzero — such as the 5/10 scenario group — the two agree.) -/
theorem c5_depth_bounds_amended :
    (∀ (f : EpochFn) (cs : List (List RawRow)) (n : Nat) (dl : DataLists)
        (p : Nat) (g : ProfileKey × List RawRow),
      process_chunks f cs emptyDataLists = some (n, dl) →
      (groupsOf cs)[p]? = some g →
      dl.shallowest_depth[p]? = pymin (g.2.map RawRow.depth) ∧
      dl.deepest_depth[p]? = pymax (g.2.map RawRow.depth)) ∧
    (∀ (f : EpochFn) (cs : List (List RawRow)) (dl : Arctic.DataLists)
        (p : Nat) (g : ProfileKey × List RawRow),
      Arctic.process_chunks f cs Arctic.emptyDataLists = some dl →
      (groupsOf cs)[p]? = some g →
      dl.shallowest_depth[p]? = pymin ((g.2.map RawRow.depth).filter nonzeroB) ∧
      dl.deepest_depth[p]? = pymax (g.2.map RawRow.depth)) :=
  ⟨fun f cs n dl p g h hg => shallowest_deepest_spec f cs n dl p g h hg,
   fun f cs dl p g h hg => arctic_shallowest_deepest_spec f cs dl p g h hg⟩

/-- Final data lists of the C5 witness run, `read.py` variant. -/
def c5dl : DataLists :=
  (((process_chunks epoch0 [[r1, r2]] emptyDataLists).map Prod.snd).getD emptyDataLists)

/-- Final data lists of the C5 witness run, Arctic variant. -/
def c5adl : Arctic.DataLists :=
  ((Arctic.process_chunks epoch0 [[r1, r2]] Arctic.emptyDataLists).getD Arctic.emptyDataLists)

/-- Witness for the amended C5: the scenario group with depths 5 and 10 gets
shallowest 5 and deepest 10 in both variants. -/
theorem c5_depth_bounds_amended_witness :
    process_chunks epoch0 [[r1, r2]] emptyDataLists = some (1, c5dl) ∧
    Arctic.process_chunks epoch0 [[r1, r2]] Arctic.emptyDataLists = some c5adl ∧
    c5dl.shallowest_depth[0]? = some 5 ∧ c5dl.deepest_depth[0]? = some 10 ∧
    c5adl.shallowest_depth[0]? = some 5 ∧ c5adl.deepest_depth[0]? = some 10 := by
  have h1 : process_chunks epoch0 [[r1, r2]] emptyDataLists = some (1, c5dl) := by decide
  have h2 : Arctic.process_chunks epoch0 [[r1, r2]] Arctic.emptyDataLists = some c5adl := by
    decide
  have hp := c5_depth_bounds_amended.1 epoch0 [[r1, r2]] 1 c5dl 0 (K1, [r1, r2]) h1 (by decide)
  have hq := c5_depth_bounds_amended.2 epoch0 [[r1, r2]] c5adl 0 (K1, [r1, r2]) h2 (by decide)
  exact ⟨h1, h2, hp.1.trans (by decide), hp.2.trans (by decide),
    hq.1.trans (by decide), hq.2.trans (by decide)⟩

/-- C6: in both variants, for every emitted profile whose row group contains a
nonzero depth reading, the deepest depth is at least the shallowest depth. -/
theorem c6_deepest_ge_shallowest :
    (∀ (f : EpochFn) (cs : List (List RawRow)) (n : Nat) (dl : DataLists)
        (p : Nat) (g : ProfileKey × List RawRow) (mn mx : Int),
      process_chunks f cs emptyDataLists = some (n, dl) →
      (groupsOf cs)[p]? = some g →
      (∃ r ∈ g.2, r.depth ≠ 0) →
      dl.shallowest_depth[p]? = some mn →
      dl.deepest_depth[p]? = some mx → mn ≤ mx) ∧
    (∀ (f : EpochFn) (cs : List (List RawRow)) (dl : Arctic.DataLists)
        (p : Nat) (g : ProfileKey × List RawRow) (mn mx : Int),
      Arctic.process_chunks f cs Arctic.emptyDataLists = some dl →
      (groupsOf cs)[p]? = some g →
      (∃ r ∈ g.2, r.depth ≠ 0) →
      dl.shallowest_depth[p]? = some mn →
      dl.deepest_depth[p]? = some mx → mn ≤ mx) := by
  constructor
  · intro f cs n dl p g mn mx h hg _hnz hmn hmx
    obtain ⟨hsh, hdp⟩ := shallowest_deepest_spec f cs n dl p g h hg
    rw [hsh] at hmn
    rw [hdp] at hmx
    exact le_pymax hmx mn (pymin_mem hmn)
  · intro f cs dl p g mn mx h hg _hnz hmn hmx
    obtain ⟨hsh, hdp⟩ := arctic_shallowest_deepest_spec f cs dl p g h hg
    rw [hsh] at hmn
    rw [hdp] at hmx
    exact le_pymax hmx mn (List.mem_of_mem_filter (pymin_mem hmn))

/-- Witness for C6: the 5/10 group in both variants, where shallowest 5 is at
most deepest 10. -/
theorem c6_deepest_ge_shallowest_witness :
    (c5dl.shallowest_depth[0]? = some 5 ∧ c5dl.deepest_depth[0]? = some 10 ∧
      (5 : Int) ≤ 10) ∧
    (c5adl.shallowest_depth[0]? = some 5 ∧ c5adl.deepest_depth[0]? = some 10 ∧
      (5 : Int) ≤ 10) := by
  have h1 : process_chunks epoch0 [[r1, r2]] emptyDataLists = some (1, c5dl) := by decide
  have h2 : Arctic.process_chunks epoch0 [[r1, r2]] Arctic.emptyDataLists = some c5adl := by
    decide
  refine ⟨⟨by decide, by decide, ?_⟩, ⟨by decide, by decide, ?_⟩⟩
  · exact c6_deepest_ge_shallowest.1 epoch0 [[r1, r2]] 1 c5dl 0 (K1, [r1, r2]) 5 10 h1
      (by decide) ⟨r1, by decide, by decide⟩ (by decide) (by decide)
  · exact c6_deepest_ge_shallowest.2 epoch0 [[r1, r2]] c5adl 0 (K1, [r1, r2]) 5 10 h2
      (by decide) ⟨r1, by decide, by decide⟩ (by decide) (by decide)

/-- C10: in the zero-excluding (Arctic) variant, provided the group is
nonempty and its timestamp parses (the other two failure sources of the group
body), the group computation succeeds exactly when the group contains at least
one nonzero depth reading — with all depths zero the selection
`data["depth"][data["depth"] != 0]` is empty and `min` fails — and on success
the emitted shallowest depth is the minimum over the nonzero depths only. -/
theorem c10_zero_exclusion_reachability (f : EpochFn) (k : ProfileKey)
    (rows : List RawRow) (dlA : Arctic.DataLists)
    (hne : rows ≠ []) (hd : (get_date f k.time).isSome) :
    ((Arctic.processGroup f k rows dlA).isSome ↔ ∃ r ∈ rows, r.depth ≠ 0) ∧
    (∀ dl', Arctic.processGroup f k rows dlA = some dl' →
      ∃ m, pymin ((rows.map RawRow.depth).filter nonzeroB) = some m ∧
        dl'.shallowest_depth = dlA.shallowest_depth ++ [m]) := by
  obtain ⟨dt, hdt⟩ := Option.isSome_iff_exists.mp hd
  have hmapne : rows.map RawRow.depth ≠ [] := by
    intro hnil
    exact hne (List.map_eq_nil_iff.mp hnil)
  obtain ⟨mx, hmx⟩ := Option.isSome_iff_exists.mp (pymax_isSome hmapne)
  have hexists : ((rows.map RawRow.depth).filter nonzeroB ≠ []) ↔ ∃ r ∈ rows, r.depth ≠ 0 := by
    rw [Ne, List.filter_eq_nil_iff]
    simp [nonzeroB]
  cases hmn : pymin ((rows.map RawRow.depth).filter nonzeroB) with
  | none =>
    have hfil : (rows.map RawRow.depth).filter nonzeroB = [] := by
      cases hc : (rows.map RawRow.depth).filter nonzeroB with
      | nil => rfl
      | cons a as => rw [hc] at hmn; simp [pymin] at hmn
    constructor
    · rw [Arctic.processGroup, hdt, hmn, hmx]
      simp only [Option.isSome_none, Bool.false_eq_true, false_iff]
      rw [← hexists]
      intro hcon
      exact hcon hfil
    · intro dl' hdl'
      rw [Arctic.processGroup, hdt, hmn, hmx] at hdl'
      exact absurd hdl' (by simp)
  | some mn =>
    constructor
    · rw [Arctic.processGroup, hdt, hmn, hmx]
      simp only [Option.isSome_some, true_iff]
      exact hexists.mp (pymin_ne_nil hmn)
    · intro dl' hdl'
      rw [Arctic.processGroup, hdt, hmn, hmx] at hdl'
      simp only [Option.some.injEq] at hdl'
      exact ⟨mn, rfl, by rw [← hdl']⟩

/-- Witness for C10: a group with depths 0 and 5 (nonempty, valid timestamp,
one nonzero reading) on which the Arctic group computation succeeds. -/
theorem c10_zero_exclusion_reachability_witness :
    ([r0, r1] ≠ ([] : List RawRow)) ∧ (get_date epoch0 K1.time).isSome ∧
    (Arctic.processGroup epoch0 K1 [r0, r1] Arctic.emptyDataLists).isSome := by
  refine ⟨by decide, by decide, ?_⟩
  exact ((c10_zero_exclusion_reachability epoch0 K1 [r0, r1] Arctic.emptyDataLists
    (by decide) (by decide)).1).mpr ⟨r1, by decide, by decide⟩

/-- A slash-free character list has no last-slash index. -/
theorem lastSlashIdx_of_no_slash : ∀ (cs : List Char), (∀ c ∈ cs, c ≠ '/') →
    lastSlashIdx cs = none
  | [], _ => rfl
  | c :: cs, h => by
    rw [lastSlashIdx, lastSlashIdx_of_no_slash cs (fun x hx => h x (List.mem_cons_of_mem _ hx))]
    simp [h c (List.mem_cons_self _ _)]

/-- When everything after a slash is slash-free, `rfind` returns the position
of that slash. -/
theorem lastSlashIdx_append : ∀ (pre tail : List Char), (∀ c ∈ tail, c ≠ '/') →
    lastSlashIdx (pre ++ '/' :: tail) = some pre.length
  | [], tail, h => by
    rw [List.nil_append, lastSlashIdx, lastSlashIdx_of_no_slash tail h]
    simp
  | c :: pre, tail, h => by
    rw [List.cons_append, lastSlashIdx, lastSlashIdx_append pre tail h]
    simp

/-- C9 counterexample: for the input path `"/d/data.json"` the pipeline's
output name is `"data._raw.nc"` — the code strips the last four characters of
the path, not the extension — while the claimed
`<basename_without_extension>_raw.<ext>` name is `"data_raw.nc"`. -/
theorem c9_counterexample :
    output_file_name "/d/data.json" = "data._raw.nc" ∧
    "data._raw.nc" ≠ "data_raw.nc" := by decide

/-- C9 amended: the output file is named by stripping the final **four
characters** of the path (correct exactly for three-character extensions such
as `.csv`, the archive's format) and appending `"_raw.nc"`: for any path
`<pre>/<stem>.<3-char ext>` whose basename contains no further `/`, the name
is `<stem>_raw.nc`.  For extensions of any other length the stripped suffix is
not the extension (see the counterexample). -/
theorem c9_output_name_amended (pre stem : List Char) (e1 e2 e3 : Char)
    (hstem : ∀ c ∈ stem, c ≠ '/')
    (h1 : e1 ≠ '/') (h2 : e2 ≠ '/') (h3 : e3 ≠ '/') :
    output_file_name (String.mk (pre ++ '/' :: (stem ++ '.' :: [e1, e2, e3])))
      = String.mk (stem ++ ("_raw.nc").data) := by
  have htail : ∀ c ∈ stem ++ '.' :: [e1, e2, e3], c ≠ '/' := by
    intro c hc
    rcases List.mem_append.mp hc with h | h
    · exact hstem c h
    · rcases List.mem_cons.mp h with h | h
      · rw [h]; decide
      · rcases List.mem_cons.mp h with h | h
        · rw [h]; exact h1
        · rcases List.mem_cons.mp h with h | h
          · rw [h]; exact h2
          · rcases List.mem_cons.mp h with h | h
            · rw [h]; exact h3
            · exact absurd h (by simp)
  rw [output_file_name]
  simp only [lastSlashIdx_append pre _ htail]
  have hlen : (pre ++ '/' :: (stem ++ '.' :: [e1, e2, e3])).length
      = pre.length + 1 + stem.length + 4 := by
    simp
    omega
  have hrw : pre ++ '/' :: (stem ++ '.' :: [e1, e2, e3])
      = ((pre ++ ['/']) ++ stem) ++ ('.' :: [e1, e2, e3]) := by
    simp
  have htake : (pre ++ '/' :: (stem ++ '.' :: [e1, e2, e3])).take
      (pre.length + 1 + stem.length + 4 - 4) = (pre ++ ['/']) ++ stem := by
    rw [hrw]
    refine List.take_left' ?_
    simp
    omega
  rw [hlen, htake]
  have hdrop : ((pre ++ ['/']) ++ stem).drop (pre.length + 1) = stem := by
    refine List.drop_left' ?_
    simp
  rw [hdrop]

/-- Witness for the amended C9: the path `"d/file.csv"` produces
`"file_raw.nc"`. -/
theorem c9_output_name_amended_witness :
    (∀ c ∈ ['f', 'i', 'l', 'e'], c ≠ '/') ∧
    output_file_name (String.mk (['d'] ++ '/' :: (['f', 'i', 'l', 'e'] ++ '.' :: ['c', 's', 'v'])))
      = String.mk (['f', 'i', 'l', 'e'] ++ ("_raw.nc").data) :=
  ⟨by decide, c9_output_name_amended ['d'] ['f', 'i', 'l', 'e'] 'c' 's' 'v'
    (by decide) (by decide) (by decide) (by decide)⟩

/-- `splitOnChar` never returns the empty list (Python `split` always yields
at least one piece). -/
theorem splitOnChar_ne_nil (sep : Char) : ∀ (l : List Char), splitOnChar sep l ≠ []
  | [] => by simp [splitOnChar]
  | c :: cs => by
    rw [splitOnChar]
    by_cases h : c = sep
    · simp [h]
    · simp only [if_neg h]
      cases hr : splitOnChar sep cs <;> simp

/-- The first element of a nonempty list, as `getElem?`. -/
theorem headD_eq_getElem? (l : List (List Char)) (h : l ≠ []) :
    l[0]? = some (l.headD []) := by
  cases l with
  | nil => exact absurd rfl h
  | cons x xs => simp

/-- `getElem? = some` forces the index below the length. -/
theorem lt_length_of_getElem?_some {α : Type} {l : List α} {n : Nat} {a : α}
    (h : l[n]? = some a) : n < l.length := by
  by_contra hc
  rw [List.getElem?_eq_none_iff.mpr (by omega)] at h
  exact absurd h (by simp)

/-- The date part of a timestamp string: what precedes the first `T`. -/
abbrev datePart (s : String) : List Char := (splitOnChar 'T' s.data).headD []

/-- The time part of a timestamp string: what stands between the first and
second `T` (the whole remainder when there is exactly one `T`). -/
abbrev timePart (s : String) : List Char := (splitOnChar 'T' s.data)[1]?.getD []

/-- The `j`-th `-`-separated component of the date part. -/
abbrev dateComp (s : String) (j : Nat) : List Char :=
  (splitOnChar '-' (datePart s))[j]?.getD []

/-- The `j`-th `:`-separated component of the time part. -/
abbrev timeComp (s : String) (j : Nat) : List Char :=
  (splitOnChar ':' (timePart s))[j]?.getD []

/-- The claim's two-level structural pattern `YYYY-MM-DD` / `HH:MM[...]`: a
`T` separates a date part from a time part, the date part splits on `-` into
year, month and day, and the time part has at least hour and minute separated
by `:`. -/
abbrev SpecPattern (s : String) : Prop :=
  2 ≤ (splitOnChar 'T' s.data).length ∧
  3 ≤ (splitOnChar '-' (datePart s)).length ∧
  2 ≤ (splitOnChar ':' (timePart s)).length

/-- All five extracted components are plain nonempty ASCII decimal digit
runs — the form every timestamp component of this archive takes.  On such runs
Python's `int()` accepts and returns exactly the run's decimal value
(`pyInt_digits` below). -/
abbrev FieldsDigitsOk (s : String) : Prop :=
  (parseDigits (dateComp s 0)).isSome ∧ (parseDigits (dateComp s 1)).isSome ∧
  (parseDigits (dateComp s 2)).isSome ∧ (parseDigits (timeComp s 0)).isSome ∧
  (parseDigits (timeComp s 1)).isSome

/-- The five components' values are within `datetime`'s accepted ranges. -/
abbrev FieldsRangeOk (s : String) : Prop :=
  datetimeOkB (((parseDigits (dateComp s 0)).getD 0 : Nat) : Int)
    (((parseDigits (dateComp s 1)).getD 0 : Nat) : Int)
    (((parseDigits (dateComp s 2)).getD 0 : Nat) : Int)
    (((parseDigits (timeComp s 0)).getD 0 : Nat) : Int)
    (((parseDigits (timeComp s 1)).getD 0 : Nat) : Int) = true

theorem pySpace_of_pyDigit {c : Char} (h : pyDigit c = true) : pySpace c = false := by
  revert h
  simp [pyDigit, pySpace]
  omega

theorem dropWhile_pySpace_of_digits :
    ∀ (cs : List Char), (∀ c ∈ cs, pyDigit c = true) → cs.dropWhile pySpace = cs
  | [], _ => rfl
  | c :: cs, h => by
    rw [List.dropWhile_cons, pySpace_of_pyDigit (h c (List.mem_cons_self _ _))]
    simp

theorem digitsU_digits :
    ∀ (cs : List Char) (acc : Nat), (∀ c ∈ cs, pyDigit c = true) →
      digitsU acc cs = some (cs.foldl (fun a c => a * 10 + digitVal c) acc)
  | [], _, _ => rfl
  | c :: cs, acc, h => by
    have hc := h c (List.mem_cons_self _ _)
    have hu : ¬ (c = '_') := by
      intro e
      rw [e] at hc
      exact absurd hc (by decide)
    rw [digitsU.eq_def]
    show (if c = '_' then _ else _) = _
    rw [if_neg hu]
    show (if pyDigit c = true then digitsU (acc * 10 + digitVal c) cs else none) = _
    rw [if_pos hc, List.foldl_cons]
    exact digitsU_digits cs _ (fun x hx => h x (List.mem_cons_of_mem _ hx))

/-- On a plain digit run, `int()` returns the run's decimal value: `pyInt`
agrees with `parseDigits` there (whitespace stripping, sign handling and
underscore separation are all inert on such runs). -/
theorem pyInt_digits {cs : List Char} {n : Nat} (h : parseDigits cs = some n) :
    pyInt cs = some (n : Int) := by
  rw [parseDigits] at h
  cases cs with
  | nil => simp at h
  | cons c rest =>
    rw [if_neg (by simp)] at h
    by_cases hall : (c :: rest).all pyDigit = true
    · rw [if_pos hall] at h
      simp only [Option.some.injEq] at h
      have hmem : ∀ x ∈ c :: rest, pyDigit x = true := by
        simpa [List.all_eq_true] using hall
      have hc := hmem c (List.mem_cons_self _ _)
      have hdw1 : (c :: rest).dropWhile pySpace = c :: rest :=
        dropWhile_pySpace_of_digits _ hmem
      have hdw2 : ((c :: rest).reverse).dropWhile pySpace = (c :: rest).reverse :=
        dropWhile_pySpace_of_digits _ (fun x hx => hmem x (List.mem_reverse.mp hx))
      have hminus : ¬ (c = '-') := by
        intro e
        rw [e] at hc
        exact absurd hc (by decide)
      have hplus : ¬ (c = '+') := by
        intro e
        rw [e] at hc
        exact absurd hc (by decide)
      rw [pyInt]
      simp only [hdw1, hdw2, List.reverse_reverse]
      show (if c = '-' then _ else if c = '+' then _
        else (pyIntBody (c :: rest)).map (fun n => (n : Int))) = some (n : Int)
      rw [if_neg hminus, if_neg hplus, pyIntBody, if_pos hc,
        digitsU_digits rest _ (fun x hx => hmem x (List.mem_cons_of_mem _ hx))]
      rw [← h, List.foldl_cons]
      simp
    · rw [if_neg hall] at h
      simp at h

/-- C7 counterexample: `"1998-13-01T03:22"` matches the two-level structural
pattern — the claim then asserts parsing succeeds — yet `get_date` fails: the
`datetime` constructor rejects month 13. -/
theorem c7_counterexample :
    SpecPattern "1998-13-01T03:22" ∧
    get_date (fun _ _ _ _ _ => 0) "1998-13-01T03:22" = none := by decide

/-- Index below the length gives `getElem?` of its own default-stripped
value. -/
theorem getElem?_some_getD (l : List (List Char)) (i : Nat) (h : i < l.length) :
    l[i]? = some (l[i]?.getD []) := by
  cases hx : l[i]? with
  | none => exact absurd (List.getElem?_eq_none_iff.mp hx) (by omega)
  | some v => rfl

/-- C7 amended: matching the two-level `YYYY-MM-DD` / `HH:MM[...]` structural
pattern is **necessary** for the timestamp to parse — every successful parse
matches it — but it is **not sufficient**: the five extracted components must
additionally be integers accepted by `int()` within `datetime`'s calendar
ranges (the counterexample fails on month 13 despite matching the pattern).
In particular parsing succeeds on every pattern-matching string whose five
components are plain decimal digit runs with in-range values — the form all of
this archive's timestamps take. -/
theorem c7_format_failure_amended :
    (∀ (f : EpochFn) (s : String), (get_date f s).isSome → SpecPattern s) ∧
    (∀ (f : EpochFn) (s : String),
      SpecPattern s → FieldsDigitsOk s → FieldsRangeOk s → (get_date f s).isSome) := by
  constructor
  · intro f s hs
    have hTne := splitOnChar_ne_nil 'T' s.data
    have hp0 : (splitOnChar 'T' s.data)[0]? = some (datePart s) := headD_eq_getElem? _ hTne
    cases hA : (splitOnChar 'T' s.data)[1]? with
    | none =>
      exfalso
      have hE : get_date f s = none := by
        rw [get_date, hp0]
        show ((splitOnChar 'T' s.data)[1]?.bind fun time => _) = none
        rw [hA]
        rfl
      rw [hE] at hs
      simp at hs
    | some time =>
      have htp : timePart s = time := by rw [timePart, hA]; rfl
      have hCne := splitOnChar_ne_nil ':' time
      have hq0 : (splitOnChar ':' time)[0]? = some ((splitOnChar ':' time).headD []) :=
        headD_eq_getElem? _ hCne
      cases hB : (splitOnChar ':' time)[1]? with
      | none =>
        exfalso
        have hE : get_date f s = none := by
          rw [get_date, hp0]
          show ((splitOnChar 'T' s.data)[1]?.bind fun time => _) = none
          rw [hA]
          show ((splitOnChar ':' time)[0]?.bind fun hour => _) = none
          rw [hq0]
          show ((splitOnChar ':' time)[1]?.bind fun minutes => _) = none
          rw [hB]
          rfl
        rw [hE] at hs
        simp at hs
      | some minutes =>
        have hDne := splitOnChar_ne_nil '-' (datePart s)
        have hr0 : (splitOnChar '-' (datePart s))[0]?
            = some ((splitOnChar '-' (datePart s)).headD []) := headD_eq_getElem? _ hDne
        cases hC : (splitOnChar '-' (datePart s))[1]? with
        | none =>
          exfalso
          have hE : get_date f s = none := by
            rw [get_date, hp0]
            show ((splitOnChar 'T' s.data)[1]?.bind fun time => _) = none
            rw [hA]
            show ((splitOnChar ':' time)[0]?.bind fun hour => _) = none
            rw [hq0]
            show ((splitOnChar ':' time)[1]?.bind fun minutes => _) = none
            rw [hB]
            show ((splitOnChar '-' (datePart s))[0]?.bind fun year => _) = none
            rw [hr0]
            show ((splitOnChar '-' (datePart s))[1]?.bind fun month => _) = none
            rw [hC]
            rfl
          rw [hE] at hs
          simp at hs
        | some month =>
          cases hD : (splitOnChar '-' (datePart s))[2]? with
          | none =>
            exfalso
            have hE : get_date f s = none := by
              rw [get_date, hp0]
              show ((splitOnChar 'T' s.data)[1]?.bind fun time => _) = none
              rw [hA]
              show ((splitOnChar ':' time)[0]?.bind fun hour => _) = none
              rw [hq0]
              show ((splitOnChar ':' time)[1]?.bind fun minutes => _) = none
              rw [hB]
              show ((splitOnChar '-' (datePart s))[0]?.bind fun year => _) = none
              rw [hr0]
              show ((splitOnChar '-' (datePart s))[1]?.bind fun month => _) = none
              rw [hC]
              show ((splitOnChar '-' (datePart s))[2]?.bind fun day => _) = none
              rw [hD]
              rfl
            rw [hE] at hs
            simp at hs
          | some day =>
            refine ⟨?_, ?_, ?_⟩
            · have := lt_length_of_getElem?_some hA
              omega
            · have := lt_length_of_getElem?_some hD
              omega
            · rw [htp]
              have := lt_length_of_getElem?_some hB
              omega
  · intro f s hsp hdig hrange
    obtain ⟨hl1, hl2, hl3⟩ := hsp
    have hTne := splitOnChar_ne_nil 'T' s.data
    have hp0 : (splitOnChar 'T' s.data)[0]? = some (datePart s) := headD_eq_getElem? _ hTne
    have hA : (splitOnChar 'T' s.data)[1]? = some (timePart s) :=
      getElem?_some_getD _ 1 (by omega)
    have hCne := splitOnChar_ne_nil ':' (timePart s)
    have hq0 : (splitOnChar ':' (timePart s))[0]?
        = some ((splitOnChar ':' (timePart s)).headD []) := headD_eq_getElem? _ hCne
    have hB : (splitOnChar ':' (timePart s))[1]? = some (timeComp s 1) :=
      getElem?_some_getD _ 1 (by omega)
    have hDne := splitOnChar_ne_nil '-' (datePart s)
    have hr0 : (splitOnChar '-' (datePart s))[0]?
        = some ((splitOnChar '-' (datePart s)).headD []) := headD_eq_getElem? _ hDne
    have hC : (splitOnChar '-' (datePart s))[1]? = some (dateComp s 1) :=
      getElem?_some_getD _ 1 (by omega)
    have hD : (splitOnChar '-' (datePart s))[2]? = some (dateComp s 2) :=
      getElem?_some_getD _ 2 (by omega)
    have hdc0 : dateComp s 0 = (splitOnChar '-' (datePart s)).headD [] := by
      rw [dateComp, hr0]; rfl
    have htc0 : timeComp s 0 = (splitOnChar ':' (timePart s)).headD [] := by
      rw [timeComp, hq0]; rfl
    obtain ⟨hd0, hd1, hd2, ht0, ht1⟩ := hdig
    obtain ⟨n0, hn0⟩ := Option.isSome_iff_exists.mp hd0
    obtain ⟨n1, hn1⟩ := Option.isSome_iff_exists.mp hd1
    obtain ⟨n2, hn2⟩ := Option.isSome_iff_exists.mp hd2
    obtain ⟨n3, hn3⟩ := Option.isSome_iff_exists.mp ht0
    obtain ⟨n4, hn4⟩ := Option.isSome_iff_exists.mp ht1
    have hy := pyInt_digits hn0
    have hmo := pyInt_digits hn1
    have hda := pyInt_digits hn2
    have hho := pyInt_digits hn3
    have hmi := pyInt_digits hn4
    rw [hdc0] at hy
    rw [htc0] at hho
    have hok : datetimeOkB (n0 : Int) (n1 : Int) (n2 : Int) (n3 : Int) (n4 : Int)
        = true := by
      rw [FieldsRangeOk, hn0, hn1, hn2, hn3, hn4] at hrange
      simpa using hrange
    have hE : get_date f s
        = some (fmtDatetime ((n0 : Int)).toNat ((n1 : Int)).toNat ((n2 : Int)).toNat
            ((n3 : Int)).toNat ((n4 : Int)).toNat,
          f ((n0 : Int)).toNat ((n1 : Int)).toNat ((n2 : Int)).toNat
            ((n3 : Int)).toNat ((n4 : Int)).toNat) := by
      rw [get_date, hp0]
      show ((splitOnChar 'T' s.data)[1]?.bind fun time => _) = _
      rw [hA]
      show ((splitOnChar ':' (timePart s))[0]?.bind fun hour => _) = _
      rw [hq0]
      show ((splitOnChar ':' (timePart s))[1]?.bind fun minutes => _) = _
      rw [hB]
      show ((splitOnChar '-' (datePart s))[0]?.bind fun year => _) = _
      rw [hr0]
      show ((splitOnChar '-' (datePart s))[1]?.bind fun month => _) = _
      rw [hC]
      show ((splitOnChar '-' (datePart s))[2]?.bind fun day => _) = _
      rw [hD]
      show ((pyInt ((splitOnChar '-' (datePart s)).headD [])).bind fun y => _) = _
      rw [hy]
      show ((pyInt (dateComp s 1)).bind fun mo => _) = _
      rw [hmo]
      show ((pyInt (dateComp s 2)).bind fun d => _) = _
      rw [hda]
      show ((pyInt ((splitOnChar ':' (timePart s)).headD [])).bind fun h => _) = _
      rw [hho]
      show ((pyInt (timeComp s 1)).bind fun mi => _) = _
      rw [hmi]
      show (if datetimeOkB (n0 : Int) (n1 : Int) (n2 : Int) (n3 : Int) (n4 : Int) = true
          then _ else none) = _
      rw [if_pos hok]
      rfl
    rw [hE]
    rfl

/-- Witness for the amended C7: the scenario timestamp matches the structural
pattern, its components are in-range digit runs, and parsing succeeds by the
sufficiency direction. -/
theorem c7_format_failure_amended_witness :
    SpecPattern "1998-07-14T03:22:00" ∧ FieldsDigitsOk "1998-07-14T03:22:00" ∧
    FieldsRangeOk "1998-07-14T03:22:00" ∧
    (get_date epoch0 "1998-07-14T03:22:00").isSome := by
  refine ⟨by decide, by decide, by decide, ?_⟩
  exact c7_format_failure_amended.2 epoch0 "1998-07-14T03:22:00"
    (by decide) (by decide) (by decide)
